import Mathlib

/-!
Shallow embedding of `src/rss_telegram_bot.py` (Telegram RSS feed monitor).

The bot keeps a single mutable dict `data` with three fields:
  * `feeds`      : list of feed URLs (strings),
  * `seen_posts` : dict mapping feed URL to the list of item ids already seen,
  * `chat_ids`   : list of registered chat ids.
Python dicts preserve insertion order and have unique keys; we model
`seen_posts` as an association list with first-occurrence lookup/update
semantics (which coincides with dict semantics on unique-key maps).
Feed entries (`get_feed_posts` results) are modelled by the `Post` structure.
Fetching is a parameter `fetch : String → Option (List Post)`; `none` models
the exception path of `get_feed_posts`, which the code turns into `[]`.
-/

namespace RSSBot

/-- One parsed feed entry, as built by `get_feed_posts` (lines 70-78):
title, link, published, summary, and the dedup identifier `id`
(upstream id, falling back to the link). -/
structure Post where
  title : String
  link : String
  published : String
  summary : String
  id : String
deriving DecidableEq, Repr

/-- The `seen_posts` dict: feed URL → list of already-seen item ids. -/
abbrev SeenMap := List (String × List String)

/-- Dict lookup: value of the first entry with the given key. -/
def lookupKey (m : SeenMap) (u : String) : Option (List String) :=
  match m with
  | [] => none
  | (k, v) :: r => if k = u then some v else lookupKey r u

/-- Dict assignment `d[u] = v`: replace the value at the first entry with
key `u`, or append a new entry if the key is absent. -/
def setKey (m : SeenMap) (u : String) (v : List String) : SeenMap :=
  match m with
  | [] => [(u, v)]
  | (k, w) :: r => if k = u then (k, v) :: r else (k, w) :: setKey r u v

/-- Dict deletion `del d[u]`: drop the first entry with key `u`. -/
def delKey (m : SeenMap) (u : String) : SeenMap :=
  match m with
  | [] => []
  | (k, w) :: r => if k = u then r else (k, w) :: delKey r u

/-- Python `list.remove(u)`: drop the first occurrence of `u`. -/
def eraseFirst (l : List String) (u : String) : List String :=
  match l with
  | [] => []
  | x :: r => if x = u then r else x :: eraseFirst r u

/-- The per-feed dedup loop of `check_feeds` / `check_feeds_periodic`
(lines 195-199 and 277-280): walk the fetched posts in order; a post whose
id is not yet in the seen list is new — its id is appended to the seen list
and the post is notified.  Returns the new posts (in input order) and the
updated seen list. -/
def dedupLoop (seen : List String) (posts : List Post) : List Post × List String :=
  match posts with
  | [] => ([], seen)
  | p :: rest =>
    if p.id ∈ seen then dedupLoop seen rest
    else
      let r := dedupLoop (seen ++ [p.id]) rest
      (p :: r.1, r.2)

/-- The pre-seeding loop of `add_feed` (lines 148-150): append each fetched
post's id to the seen list unless already present. -/
def preSeed (posts : List Post) (seen : List String) : List String :=
  match posts with
  | [] => seen
  | p :: rest =>
    if p.id ∈ seen then preSeed rest seen else preSeed rest (seen ++ [p.id])

/-- The bot's persistent state, `self.data` (three JSON fields). -/
structure TrackingState where
  feeds : List String
  seen_posts : SeenMap
  chat_ids : List Int
deriving DecidableEq, Repr

/-- The default data structure returned by `load_data` when the data file
does not exist or cannot be parsed (lines 50-54). -/
def default_data : TrackingState :=
  { feeds := ["https://status.aws.amazon.com/rss/multipleservices-us-east-1.rss"]
    seen_posts := []
    chat_ids := [] }

/-- Outcome reported by `/addfeed`. -/
inductive AddResult where
  | alreadyMonitored
  | fetchError
  | added (existingCount : Nat)
deriving DecidableEq, Repr

/-- `add_feed` (lines 122-158), with the fetch result passed in: if the URL
is already monitored, or the validation fetch yields no posts, the state is
left unchanged; otherwise the URL is appended to `feeds`, its seen list is
initialised to `[]` and then pre-seeded with the fetched ids. -/
def add_feed (st : TrackingState) (url : String) (fetched : List Post) :
    AddResult × TrackingState :=
  if url ∈ st.feeds then (.alreadyMonitored, st)
  else if fetched.isEmpty then (.fetchError, st)
  else
    let sp := setKey st.seen_posts url []
    let sp := setKey sp url (preSeed fetched [])
    (.added fetched.length, { st with feeds := st.feeds ++ [url], seen_posts := sp })

/-- Whether `add_feed` reaches its `save_data()` call (line 152): only on
the success path. -/
def add_feed_saves (st : TrackingState) (url : String) (fetched : List Post) : Bool :=
  !(st.feeds.contains url) && !fetched.isEmpty

/-- `remove_feed` (lines 160-180): if the URL is monitored, remove it from
`feeds` and delete its `seen_posts` entry when one exists.  Returns whether
a removal happened. -/
def remove_feed (st : TrackingState) (url : String) : Bool × TrackingState :=
  if url ∈ st.feeds then
    (true,
      { st with
        feeds := eraseFirst st.feeds url
        seen_posts :=
          if (lookupKey st.seen_posts url).isSome then delKey st.seen_posts url
          else st.seen_posts })
  else (false, st)

/-- One feed's slice of a check cycle (lines 188-218 / 270-304): initialise
the feed's seen list if missing, run the dedup loop over the fetched posts,
store the updated seen list back.  Returns the new-post count, the new
posts (each triggers one notification), and the updated map. -/
def processFeed (sp : SeenMap) (url : String) (posts : List Post) :
    Nat × List Post × SeenMap :=
  let sp := if (lookupKey sp url).isSome then sp else setKey sp url []
  let seen0 := (lookupKey sp url).getD []
  let r := dedupLoop seen0 posts
  (r.1.length, r.1, setKey sp url r.2)

/-- The cycle's loop over the feed list, threading the seen map.
`(fetch u).getD []` mirrors `get_feed_posts` returning `[]` on error. -/
def checkFeedsGo (fetch : String → Option (List Post)) :
    List String → SeenMap → Nat × List Post × SeenMap
  | [], sp => (0, [], sp)
  | u :: rest, sp =>
    let posts := (fetch u).getD []
    let r := processFeed sp u posts
    let r2 := checkFeedsGo fetch rest r.2.2
    (r.1 + r2.1, r.2.1 ++ r2.2.1, r2.2.2)

/-- `check_feeds` (manual `/check`, lines 182-225): run the cycle over all
feeds, then persist.  Returns the new-post count, the list of notified
posts, and the updated state. -/
def check_feeds (st : TrackingState) (fetch : String → Option (List Post)) :
    Nat × List Post × TrackingState :=
  let r := checkFeedsGo fetch st.feeds st.seen_posts
  (r.1, r.2.1, { st with seen_posts := r.2.2 })

/-- Summary truncation (lines 212-215 / 293-296): keep the first 500
characters and append `"..."` when the original summary is longer. -/
def truncateSummary (s : List Char) : List Char :=
  if 500 < s.length then s.take 500 ++ "...".data else s

/-- The part of the notification message before the summary segment:
header with title and link, then the optional published line
(lines 202-209 / 283-290). -/
def messagePrefix (p : Post) : List Char :=
  let m := "🔔 New Post Alert!\n\n📰 ".data ++ p.title.data ++
    "\n\n🔗 ".data ++ p.link.data ++ "\n\n".data
  if p.published.data ≠ [] then m ++ "📅 ".data ++ p.published.data ++ "\n\n".data
  else m

/-- The full notification message built for one new post
(lines 202-216 / 283-297). -/
def formatMessage (p : Post) : List Char :=
  let m := "🔔 New Post Alert!\n\n📰 ".data ++ p.title.data ++
    "\n\n🔗 ".data ++ p.link.data ++ "\n\n".data
  let m :=
    if p.published.data ≠ [] then m ++ "📅 ".data ++ p.published.data ++ "\n\n".data
    else m
  if p.summary.data ≠ [] then m ++ truncateSummary p.summary.data else m

/-- `check_feeds_periodic` (lines 266-306): same dedup cycle; each new post
is sent to every registered chat id. -/
def check_feeds_periodic (st : TrackingState) (fetch : String → Option (List Post)) :
    List (Int × List Char) × TrackingState :=
  let r := checkFeedsGo fetch st.feeds st.seen_posts
  ((r.2.1.map (fun p => st.chat_ids.map (fun c => (c, formatMessage p)))).flatten,
    { st with seen_posts := r.2.2 })

/-- A minimal concrete post used in concrete instantiations. -/
def examplePost (i : String) : Post :=
  { title := "t", link := "l", published := "", summary := "", id := i }

/-- The spec's TrackingState entry invariant: every registered feed has a
`seen_posts` entry. -/
def feedsCovered (st : TrackingState) : Prop :=
  ∀ u ∈ st.feeds, (lookupKey st.seen_posts u).isSome = true

instance (st : TrackingState) : Decidable (feedsCovered st) := by
  unfold feedsCovered; infer_instance

/-- Bookkeeping invariant of reachable states: the feed list and the
`seen_posts` keys are duplicate-free (Python dict keys are unique) and
every registered feed has a `seen_posts` entry. -/
def stateInv (st : TrackingState) : Prop :=
  st.feeds.Nodup ∧ (st.seen_posts.map Prod.fst).Nodup ∧ feedsCovered st

instance (st : TrackingState) : Decidable (stateInv st) := by
  unfold stateInv; infer_instance

/-- Every per-feed seen list is duplicate-free. -/
def seenNodup (m : SeenMap) : Prop := ∀ e ∈ m, List.Nodup e.2

instance (m : SeenMap) : Decidable (seenNodup m) := by
  unfold seenNodup; infer_instance

/-! ### JSON value model for persistence

`save_data` writes `self.data` with `json.dump` and `load_data` reads it
back with `json.load` (lines 40-62).  The textual encoding is Python's
`json` standard library, external to this repository; we model the
persisted document at the JSON-value level.  The bot's data only ever
contains strings, integers, arrays and string-keyed objects (Python dicts
preserve insertion order, which `json.dump`/`json.load` keep). -/

/-- A JSON value, restricted to the forms the bot's data can take. -/
inductive JValue where
  | jstr (s : String)
  | jint (n : Int)
  | jarr (xs : List JValue)
  | jobj (fields : List (String × JValue))

/-- `save_data`: the JSON document written for a tracking state. -/
def encodeState (st : TrackingState) : JValue :=
  .jobj
    [("feeds", .jarr (st.feeds.map .jstr)),
     ("seen_posts", .jobj (st.seen_posts.map fun e => (e.1, .jarr (e.2.map .jstr)))),
     ("chat_ids", .jarr (st.chat_ids.map .jint))]

/-- Read a JSON string. -/
def decodeStr : JValue → Option String
  | .jstr s => some s
  | _ => none

/-- Read a list of JSON strings. -/
def decodeStrs : List JValue → Option (List String)
  | [] => some []
  | x :: r =>
    match decodeStr x, decodeStrs r with
    | some s, some t => some (s :: t)
    | _, _ => none

/-- Read a JSON array of strings. -/
def decodeStrList : JValue → Option (List String)
  | .jarr xs => decodeStrs xs
  | _ => none

/-- Read a JSON integer. -/
def decodeInt : JValue → Option Int
  | .jint n => some n
  | _ => none

/-- Read a list of JSON integers. -/
def decodeInts : List JValue → Option (List Int)
  | [] => some []
  | x :: r =>
    match decodeInt x, decodeInts r with
    | some n, some t => some (n :: t)
    | _, _ => none

/-- Read a JSON array of integers. -/
def decodeIntList : JValue → Option (List Int)
  | .jarr xs => decodeInts xs
  | _ => none

/-- Read the `seen_posts` object: each field maps a feed URL to an array
of item-id strings. -/
def decodeSeenEntries : List (String × JValue) → Option SeenMap
  | [] => some []
  | (k, v) :: r =>
    match decodeStrList v, decodeSeenEntries r with
    | some ids, some t => some ((k, ids) :: t)
    | _, _ => none

/-- Read the `seen_posts` JSON object. -/
def decodeSeen : JValue → Option SeenMap
  | .jobj fields => decodeSeenEntries fields
  | _ => none

/-- `load_data` on a previously saved document: project the three fields
of the JSON object back into a tracking state. -/
def decodeState : JValue → Option TrackingState
  | .jobj [("feeds", f), ("seen_posts", sp), ("chat_ids", c)] =>
    match decodeStrList f, decodeSeen sp, decodeIntList c with
    | some fs, some m, some cs => some ⟨fs, m, cs⟩
    | _, _, _ => none
  | _ => none

/-! ### Interleaving model for overlapping checks

`check_feeds` (manual) and `check_feeds_periodic` (scheduled) run as
coroutines on one asyncio event loop.  For one feed whose fetches returned
identical post lists to both, each coroutine walks its own copy of the
post list against the shared seen list.  The membership test, the append
to the seen list and the new-post bookkeeping (lines 196-199 / 278-281)
contain no `await`, so they execute atomically; the event loop may switch
coroutines only at the `await`ed reply/send calls that follow.  One atomic
step therefore processes one pending post; a schedule is an arbitrary
sequence of coroutine choices. -/

/-- Shared-state view of two overlapping checks of one feed: the shared
seen list, the ids notified so far (each entry is one delivered
notification fan-out), and each coroutine's remaining posts. -/
structure ConcState where
  seen : List String
  notified : List String
  pending1 : List Post
  pending2 : List Post
deriving DecidableEq, Repr

/-- One atomic step of the manual-check coroutine: process its next
pending post (test membership; if new, append to the shared seen list and
notify). -/
def step1 (s : ConcState) : ConcState :=
  match s.pending1 with
  | [] => s
  | p :: rest =>
    if p.id ∈ s.seen then { s with pending1 := rest }
    else
      { s with
        pending1 := rest
        seen := s.seen ++ [p.id]
        notified := s.notified ++ [p.id] }

/-- One atomic step of the scheduled-check coroutine. -/
def step2 (s : ConcState) : ConcState :=
  match s.pending2 with
  | [] => s
  | p :: rest =>
    if p.id ∈ s.seen then { s with pending2 := rest }
    else
      { s with
        pending2 := rest
        seen := s.seen ++ [p.id]
        notified := s.notified ++ [p.id] }

/-- Run the manual-check coroutine to completion (fuel is its pending
list, which one step always shortens). -/
def drain1Aux : List Post → ConcState → ConcState
  | [], s => s
  | _ :: r, s => drain1Aux r (step1 s)

/-- Run the scheduled-check coroutine to completion. -/
def drain2Aux : List Post → ConcState → ConcState
  | [], s => s
  | _ :: r, s => drain2Aux r (step2 s)

/-- Run both coroutines under an arbitrary finite schedule, then let each
run to completion (every fair event loop execution is of this shape). -/
def runSched : List Bool → ConcState → ConcState
  | [], s => drain2Aux (drain1Aux s.pending1 s).pending2 (drain1Aux s.pending1 s)
  | b :: r, s => runSched r (if b then step1 s else step2 s)

/-- Execution invariant of the overlap model: the shared seen list is the
initial seen list followed by exactly the notified ids, and no id was
notified twice. -/
def Good (s0 : List String) (s : ConcState) : Prop :=
  s.seen = s0 ++ s.notified ∧ s.notified.Nodup

/-- Per-id progress invariant of the overlap model: id `i` is still
pending for the manual coroutine, or was initially seen, or has been
notified. -/
def Tracked (i : String) (s0 : List String) (s : ConcState) : Prop :=
  i ∈ s.pending1.map Post.id ∨ i ∈ s0 ∨ i ∈ s.notified

end RSSBot

namespace RSSBot

/-! ### Basic lemmas about the dict model and the dedup loop -/

theorem lookupKey_setKey_self (m : SeenMap) (u : String) (v : List String) :
    lookupKey (setKey m u v) u = some v := by
  induction m with
  | nil => simp [setKey, lookupKey]
  | cons h t ih =>
    obtain ⟨k, w⟩ := h
    by_cases hk : k = u <;> simp [setKey, lookupKey, hk, ih]

theorem lookupKey_setKey_ne (m : SeenMap) (u v : String) (w : List String)
    (h : v ≠ u) : lookupKey (setKey m u w) v = lookupKey m v := by
  induction m with
  | nil => simp [setKey, lookupKey, Ne.symm h]
  | cons hd t ih =>
    obtain ⟨k, x⟩ := hd
    by_cases hk : k = u
    · subst hk
      simp [setKey, lookupKey, Ne.symm h]
    · simp [setKey, lookupKey, hk, ih]

theorem setKey_self (m : SeenMap) (u : String) (v : List String)
    (h : lookupKey m u = some v) : setKey m u v = m := by
  induction m with
  | nil => simp [lookupKey] at h
  | cons hd t ih =>
    obtain ⟨k, w⟩ := hd
    by_cases hk : k = u
    · subst hk
      simp [lookupKey] at h
      simp [setKey, h]
    · simp [lookupKey, hk] at h
      simp [setKey, hk, ih h]

theorem mem_dedupLoop_seen (seen : List String) (posts : List Post) (a : String)
    (h : a ∈ seen) : a ∈ (dedupLoop seen posts).2 := by
  induction posts generalizing seen with
  | nil => simpa [dedupLoop]
  | cons p rest ih =>
    by_cases hp : p.id ∈ seen
    · simpa [dedupLoop, hp] using ih seen h
    · simpa [dedupLoop, hp] using ih (seen ++ [p.id]) (by simp [h])

theorem id_mem_dedupLoop_seen (seen : List String) (posts : List Post) :
    ∀ p ∈ posts, p.id ∈ (dedupLoop seen posts).2 := by
  induction posts generalizing seen with
  | nil => intro p hp; cases hp
  | cons q rest ih =>
    intro p hp
    rcases List.mem_cons.mp hp with rfl | hp
    · by_cases hq : p.id ∈ seen
      · simpa [dedupLoop, hq] using mem_dedupLoop_seen seen rest _ hq
      · simpa [dedupLoop, hq] using
          mem_dedupLoop_seen (seen ++ [p.id]) rest _ (by simp)
    · by_cases hq : q.id ∈ seen <;>
        simpa [dedupLoop, hq] using ih _ _ hp

theorem dedupLoop_of_all_seen (seen : List String) (posts : List Post)
    (h : ∀ p ∈ posts, p.id ∈ seen) : dedupLoop seen posts = ([], seen) := by
  induction posts with
  | nil => simp [dedupLoop]
  | cons p rest ih =>
    have hp : p.id ∈ seen := h p (by simp)
    simp [dedupLoop, hp, ih fun q hq => h q (by simp [hq])]

/-- C1 — Dedup is idempotent: re-running the per-feed dedup partition with
the seen list produced by a first run classifies no post as new and leaves
the seen list unchanged. -/
theorem dedup_idempotent (seen : List String) (posts : List Post) :
    dedupLoop (dedupLoop seen posts).2 posts = ([], (dedupLoop seen posts).2) :=
  dedupLoop_of_all_seen _ _ fun p hp => id_mem_dedupLoop_seen seen posts p hp

theorem dedupLoop_nil (seen : List String) : dedupLoop seen [] = ([], seen) := rfl

theorem lookupKey_eq_none_of_not_mem (m : SeenMap) (u : String)
    (h : u ∉ m.map Prod.fst) : lookupKey m u = none := by
  induction m with
  | nil => rfl
  | cons hd t ih =>
    obtain ⟨k, w⟩ := hd
    simp only [List.map_cons, List.mem_cons] at h
    push_neg at h
    have hk : ¬ k = u := fun he => h.1 he.symm
    simp [lookupKey, hk, ih h.2]

theorem mem_keys_setKey (m : SeenMap) (u v : String) (w : List String) :
    v ∈ (setKey m u w).map Prod.fst ↔ v ∈ m.map Prod.fst ∨ v = u := by
  induction m with
  | nil => simp [setKey]
  | cons hd t ih =>
    obtain ⟨k, x⟩ := hd
    by_cases hk : k = u
    · subst hk
      simp [setKey]
      tauto
    · simp only [setKey, if_neg hk, List.map_cons, List.mem_cons, ih]
      tauto

theorem keys_setKey_nodup (m : SeenMap) (u : String) (w : List String)
    (h : (m.map Prod.fst).Nodup) : ((setKey m u w).map Prod.fst).Nodup := by
  induction m with
  | nil => simp [setKey]
  | cons hd t ih =>
    obtain ⟨k, x⟩ := hd
    simp only [List.map_cons, List.nodup_cons] at h
    by_cases hk : k = u
    · subst hk
      simpa [setKey, List.nodup_cons] using h
    · simp only [setKey, if_neg hk, List.map_cons, List.nodup_cons]
      refine ⟨fun hmem => ?_, ih h.2⟩
      rcases (mem_keys_setKey t u k w).mp hmem with hm | hm
      · exact h.1 hm
      · exact hk hm

theorem lookupKey_delKey_ne (m : SeenMap) (u v : String) (h : v ≠ u) :
    lookupKey (delKey m u) v = lookupKey m v := by
  induction m with
  | nil => rfl
  | cons hd t ih =>
    obtain ⟨k, x⟩ := hd
    by_cases hk : k = u
    · subst hk
      simp [delKey, lookupKey, Ne.symm h]
    · simp [delKey, lookupKey, hk, ih]

theorem lookupKey_delKey_self (m : SeenMap) (u : String)
    (h : (m.map Prod.fst).Nodup) : lookupKey (delKey m u) u = none := by
  induction m with
  | nil => rfl
  | cons hd t ih =>
    obtain ⟨k, x⟩ := hd
    simp only [List.map_cons, List.nodup_cons] at h
    by_cases hk : k = u
    · subst hk
      simpa [delKey] using lookupKey_eq_none_of_not_mem t k h.1
    · simp [delKey, lookupKey, hk, ih h.2]

theorem keys_delKey_sublist (m : SeenMap) (u : String) :
    ((delKey m u).map Prod.fst).Sublist (m.map Prod.fst) := by
  induction m with
  | nil => simp [delKey]
  | cons hd t ih =>
    obtain ⟨k, x⟩ := hd
    by_cases hk : k = u
    · simp only [delKey, if_pos hk]
      exact List.sublist_cons_self k (t.map Prod.fst)
    · simpa [delKey, hk] using List.Sublist.cons₂ k ih

theorem eraseFirst_sublist (l : List String) (u : String) :
    (eraseFirst l u).Sublist l := by
  induction l with
  | nil => simp [eraseFirst]
  | cons x r ih =>
    by_cases hx : x = u
    · simp only [eraseFirst, if_pos hx]
      exact List.sublist_cons_self x r
    · simpa [eraseFirst, hx] using List.Sublist.cons₂ x ih

theorem not_mem_eraseFirst_self (l : List String) (u : String) (h : l.Nodup) :
    u ∉ eraseFirst l u := by
  induction l with
  | nil => simp [eraseFirst]
  | cons x r ih =>
    simp only [List.nodup_cons] at h
    by_cases hx : x = u
    · subst hx
      simpa [eraseFirst] using h.1
    · simp [eraseFirst, hx, Ne.symm hx, ih h.2]

theorem mem_preSeed_mono (posts : List Post) (seen : List String) (a : String)
    (h : a ∈ seen) : a ∈ preSeed posts seen := by
  induction posts generalizing seen with
  | nil => simpa [preSeed]
  | cons p rest ih =>
    by_cases hp : p.id ∈ seen
    · simpa [preSeed, hp] using ih seen h
    · simpa [preSeed, hp] using ih (seen ++ [p.id]) (by simp [h])

theorem id_mem_preSeed (posts : List Post) (seen : List String) :
    ∀ p ∈ posts, p.id ∈ preSeed posts seen := by
  induction posts generalizing seen with
  | nil => intro p hp; cases hp
  | cons q rest ih =>
    intro p hp
    rcases List.mem_cons.mp hp with rfl | hp
    · by_cases hq : p.id ∈ seen
      · simpa [preSeed, hq] using mem_preSeed_mono rest seen _ hq
      · simpa [preSeed, hq] using mem_preSeed_mono rest (seen ++ [p.id]) _ (by simp)
    · by_cases hq : q.id ∈ seen <;> simpa [preSeed, hq] using ih _ _ hp

theorem preSeed_length_nodup (posts : List Post) (seen : List String)
    (h1 : (posts.map Post.id).Nodup) (h2 : ∀ p ∈ posts, p.id ∉ seen) :
    (preSeed posts seen).length = seen.length + posts.length := by
  induction posts generalizing seen with
  | nil => simp [preSeed]
  | cons p rest ih =>
    simp only [List.map_cons, List.nodup_cons] at h1
    have hp : p.id ∉ seen := h2 p (by simp)
    have hrest : ∀ q ∈ rest, q.id ∉ seen ++ [p.id] := by
      intro q hq
      simp only [List.mem_append, List.mem_singleton]
      push_neg
      exact ⟨h2 q (by simp [hq]), fun he => h1.1 (he ▸ List.mem_map_of_mem Post.id hq)⟩
    have hlen := ih (seen ++ [p.id]) h1.2 hrest
    simp only [List.length_append, List.length_cons, List.length_nil] at hlen
    simp only [preSeed, if_neg hp, hlen, List.length_cons]
    omega

/-- C5 — Summary truncation: the notification message is the title, link
and optional published prefix followed by the summary segment, which is the
first 500 characters of the summary plus the fixed `"..."` marker when the
summary exceeds 500 characters, and the whole summary (no marker)
otherwise. -/
theorem summary_truncation (p : Post) :
    formatMessage p =
      messagePrefix p ++
        (if 500 < p.summary.data.length then p.summary.data.take 500 ++ "...".data
         else p.summary.data) := by
  by_cases hs : p.summary.data = []
  · simp [formatMessage, messagePrefix, truncateSummary, hs]
  · simp [formatMessage, messagePrefix, truncateSummary, hs]

/-- C2 counterexample — in the default state produced by `load_data` when
no data file exists, the seed feed is registered but has no `seen_posts`
entry, so the entry invariant fails in the initial state. -/
theorem default_state_entry_counterexample : ¬ feedsCovered default_data := by
  decide

/-- C2 (amended) — the entry invariant (every registered feed has a
`seen_posts` entry, with duplicate-free feed list and keys) is preserved by
`add_feed` and `remove_feed`, and a successful removal leaves neither the
feed entry nor its `seen_posts` entry behind; the invariant does not hold
in the initial default state (see the counterexample). -/
theorem trackingstate_invariant_preserved (st : TrackingState) (url : String)
    (fetched : List Post) (h : stateInv st) :
    stateInv (add_feed st url fetched).2 ∧
    stateInv (remove_feed st url).2 ∧
    ((remove_feed st url).1 = true →
      url ∉ (remove_feed st url).2.feeds ∧
      lookupKey (remove_feed st url).2.seen_posts url = none) := by
  obtain ⟨hnd, hkeys, hcov⟩ := h
  refine ⟨?_, ?_, ?_⟩
  · by_cases hmem : url ∈ st.feeds
    · simpa [add_feed, hmem] using ⟨hnd, hkeys, hcov⟩
    · cases hfe : fetched.isEmpty
      · simp only [add_feed, if_neg hmem, hfe, Bool.false_eq_true, if_false]
        refine ⟨?_, ?_, ?_⟩
        · simp [List.nodup_append, hnd, hmem]
        · exact keys_setKey_nodup _ _ _ (keys_setKey_nodup _ _ _ hkeys)
        · intro v hv
          rcases List.mem_append.mp hv with hv | hv
          · have hvne : v ≠ url := fun he => hmem (he ▸ hv)
            rw [lookupKey_setKey_ne _ _ _ _ hvne, lookupKey_setKey_ne _ _ _ _ hvne]
            exact hcov v hv
          · simp only [List.mem_singleton] at hv
            subst hv
            simp [lookupKey_setKey_self]
      · simpa [add_feed, hmem, hfe] using ⟨hnd, hkeys, hcov⟩
  · by_cases hmem : url ∈ st.feeds
    · simp only [remove_feed, if_pos hmem]
      refine ⟨(eraseFirst_sublist _ _).nodup hnd, ?_, ?_⟩
      · cases hlk : (lookupKey st.seen_posts url).isSome
        · simpa [hlk] using hkeys
        · simpa [hlk] using (keys_delKey_sublist _ _).nodup hkeys
      · intro v hv
        have hvf : v ∈ st.feeds := (eraseFirst_sublist _ _).subset hv
        have hvne : v ≠ url := fun he => not_mem_eraseFirst_self _ _ hnd (he ▸ hv)
        cases hlk : (lookupKey st.seen_posts url).isSome
        · simpa [hlk] using hcov v hvf
        · simpa [hlk, lookupKey_delKey_ne _ _ _ hvne] using hcov v hvf
    · simpa [remove_feed, hmem] using ⟨hnd, hkeys, hcov⟩
  · intro hrem
    by_cases hmem : url ∈ st.feeds
    · refine ⟨?_, ?_⟩
      · simpa [remove_feed, hmem] using not_mem_eraseFirst_self _ _ hnd
      · simp only [remove_feed, if_pos hmem]
        cases hlk : (lookupKey st.seen_posts url).isSome
        · simpa [hlk] using Option.not_isSome_iff_eq_none.mp (by simp [hlk])
        · simpa [hlk] using lookupKey_delKey_self _ _ hkeys
    · simp [remove_feed, hmem] at hrem

/-- Witness for the amended C2 theorem at a concrete valid state. -/
theorem trackingstate_invariant_preserved_witness :
    stateInv (⟨["a"], [("a", [])], []⟩ : TrackingState) ∧
    (stateInv (add_feed ⟨["a"], [("a", [])], []⟩ "b" [examplePost "x"]).2 ∧
     stateInv (remove_feed ⟨["a"], [("a", [])], []⟩ "b").2 ∧
     ((remove_feed (⟨["a"], [("a", [])], []⟩ : TrackingState) "b").1 = true →
       "b" ∉ (remove_feed (⟨["a"], [("a", [])], []⟩ : TrackingState) "b").2.feeds ∧
       lookupKey (remove_feed (⟨["a"], [("a", [])], []⟩ : TrackingState) "b").2.seen_posts
         "b" = none)) :=
  ⟨by decide, trackingstate_invariant_preserved _ "b" [examplePost "x"] (by decide)⟩

/-- C3 counterexample — a feed whose validation fetch returns two items
with the same id is added successfully, yet its pre-seeded seen list has
size 1, not 2: the seen-set size is the number of distinct ids, not the
number of fetched items. -/
theorem add_feed_preseed_counterexample :
    (add_feed default_data "u" [examplePost "a", examplePost "a"]).1
      = AddResult.added 2 ∧
    ((lookupKey (add_feed default_data "u"
        [examplePost "a", examplePost "a"]).2.seen_posts "u").getD []).length ≠ 2 := by
  decide

/-- C3 (amended) — when the fetched items have pairwise-distinct ids, a
successful add pre-seeds a seen list of size N (in general, of size the
number of distinct ids), and the cycle's handling of that feed immediately
afterwards, with the fetch unchanged, finds zero new items, sends zero
notifications and leaves the seen map unchanged. -/
theorem add_feed_preseeds (st : TrackingState) (url : String) (fetched : List Post)
    (h1 : url ∉ st.feeds) (h2 : fetched ≠ [])
    (h3 : (fetched.map Post.id).Nodup) :
    (add_feed st url fetched).1 = AddResult.added fetched.length ∧
    ((lookupKey (add_feed st url fetched).2.seen_posts url).getD []).length
      = fetched.length ∧
    processFeed (add_feed st url fetched).2.seen_posts url fetched
      = (0, [], (add_feed st url fetched).2.seen_posts) := by
  have hne : fetched.isEmpty = false := by
    cases fetched with
    | nil => exact absurd rfl h2
    | cons a l => rfl
  have hres : add_feed st url fetched =
      (AddResult.added fetched.length,
        { st with
            feeds := st.feeds ++ [url]
            seen_posts :=
              setKey (setKey st.seen_posts url []) url (preSeed fetched []) }) := by
    simp [add_feed, h1, hne]
  rw [hres]
  have hlk : lookupKey (setKey (setKey st.seen_posts url []) url (preSeed fetched []))
      url = some (preSeed fetched []) := lookupKey_setKey_self _ _ _
  refine ⟨rfl, ?_, ?_⟩
  · rw [hlk]
    simpa using preSeed_length_nodup fetched [] h3 (by intro p hp; simp)
  · have hdl : dedupLoop (preSeed fetched []) fetched = ([], preSeed fetched []) :=
      dedupLoop_of_all_seen _ _ (id_mem_preSeed fetched [])
    simp [processFeed, hlk, hdl, setKey_self _ _ _ hlk]

/-- Witness for the amended C3 theorem at a concrete feed with two
distinct items. -/
theorem add_feed_preseeds_witness :
    ("u" ∉ default_data.feeds ∧ [examplePost "a", examplePost "b"] ≠ [] ∧
      ([examplePost "a", examplePost "b"].map Post.id).Nodup) ∧
    ((add_feed default_data "u" [examplePost "a", examplePost "b"]).1
        = AddResult.added [examplePost "a", examplePost "b"].length ∧
      ((lookupKey (add_feed default_data "u"
          [examplePost "a", examplePost "b"]).2.seen_posts "u").getD []).length
        = [examplePost "a", examplePost "b"].length ∧
      processFeed (add_feed default_data "u"
          [examplePost "a", examplePost "b"]).2.seen_posts "u"
          [examplePost "a", examplePost "b"]
        = (0, [],
            (add_feed default_data "u"
              [examplePost "a", examplePost "b"]).2.seen_posts)) :=
  ⟨⟨by decide, by decide, by decide⟩,
    add_feed_preseeds default_data "u" [examplePost "a", examplePost "b"]
      (by decide) (by decide) (by decide)⟩

/-- C7 — Remove-feed atomicity: removing a registered feed removes both
its feed-list entry and its `seen_posts` entry, and a subsequent re-add of
the same URL pre-seeds starting from the empty seen list (its new seen
list is `preSeed fetched []`, independent of any earlier history). -/
theorem remove_then_readd_fresh (st : TrackingState) (url : String)
    (fetched : List Post) (h : stateInv st) (hmem : url ∈ st.feeds)
    (hf : fetched ≠ []) :
    url ∉ (remove_feed st url).2.feeds ∧
    lookupKey (remove_feed st url).2.seen_posts url = none ∧
    lookupKey (add_feed (remove_feed st url).2 url fetched).2.seen_posts url
      = some (preSeed fetched []) := by
  obtain ⟨hnd, hkeys, hcov⟩ := h
  have hne : fetched.isEmpty = false := by
    cases fetched with
    | nil => exact absurd rfl hf
    | cons a l => rfl
  have h1 : url ∉ (remove_feed st url).2.feeds := by
    simpa [remove_feed, hmem] using not_mem_eraseFirst_self _ _ hnd
  refine ⟨h1, ?_, ?_⟩
  · simp only [remove_feed, if_pos hmem]
    cases hlk : (lookupKey st.seen_posts url).isSome
    · simpa [hlk] using Option.not_isSome_iff_eq_none.mp (by simp [hlk])
    · simpa [hlk] using lookupKey_delKey_self _ _ hkeys
  · simp [add_feed, h1, hne, lookupKey_setKey_self]

/-- Witness for C7 at a concrete single-feed state with prior history. -/
theorem remove_then_readd_fresh_witness :
    (stateInv (⟨["a"], [("a", ["x"])], []⟩ : TrackingState) ∧
      "a" ∈ (⟨["a"], [("a", ["x"])], []⟩ : TrackingState).feeds ∧
      [examplePost "b"] ≠ ([] : List Post)) ∧
    ("a" ∉ (remove_feed ⟨["a"], [("a", ["x"])], []⟩ "a").2.feeds ∧
      lookupKey (remove_feed (⟨["a"], [("a", ["x"])], []⟩ : TrackingState)
        "a").2.seen_posts "a" = none ∧
      lookupKey (add_feed (remove_feed ⟨["a"], [("a", ["x"])], []⟩ "a").2 "a"
          [examplePost "b"]).2.seen_posts "a"
        = some (preSeed [examplePost "b"] [])) :=
  ⟨⟨by decide, by decide, by decide⟩,
    remove_then_readd_fresh ⟨["a"], [("a", ["x"])], []⟩ "a" [examplePost "b"]
      (by decide) (by decide) (by decide)⟩

/-- C8 — Add-feed failure atomicity: when the validation fetch yields no
items for an unmonitored URL, `add_feed` reports a fetch error, leaves the
whole state unchanged, and does not reach its `save_data` call. -/
theorem add_feed_failure_atomic (st : TrackingState) (url : String)
    (h : url ∉ st.feeds) :
    add_feed st url [] = (AddResult.fetchError, st) ∧
    add_feed_saves st url [] = false := by
  constructor
  · simp [add_feed, h]
  · simp [add_feed_saves]

/-- Witness for C8 at the default state and a fresh URL. -/
theorem add_feed_failure_atomic_witness :
    "u" ∉ default_data.feeds ∧
    (add_feed default_data "u" [] = (AddResult.fetchError, default_data) ∧
      add_feed_saves default_data "u" [] = false) :=
  ⟨by decide, add_feed_failure_atomic default_data "u" (by decide)⟩

/-! ### Round-trip persistence -/

theorem decodeStrs_map (xs : List String) :
    decodeStrs (xs.map JValue.jstr) = some xs := by
  induction xs with
  | nil => rfl
  | cons a l ih => simp [decodeStrs, decodeStr, ih]

theorem decodeInts_map (xs : List Int) :
    decodeInts (xs.map JValue.jint) = some xs := by
  induction xs with
  | nil => rfl
  | cons a l ih => simp [decodeInts, decodeInt, ih]

theorem decodeSeenEntries_map (m : SeenMap) :
    decodeSeenEntries (m.map fun e => (e.1, JValue.jarr (e.2.map JValue.jstr)))
      = some m := by
  induction m with
  | nil => rfl
  | cons e t ih =>
    obtain ⟨k, v⟩ := e
    simp [decodeSeenEntries, decodeStrList, decodeStrs_map, ih]

/-- C6 — Round-trip persistence: reading back the JSON document that
`save_data` writes for any tracking state recovers a state equal in all
three fields (feeds, seen_posts, chat_ids) to the original, including
empty seen lists and an empty recipient list. -/
theorem save_load_roundtrip (st : TrackingState) :
    decodeState (encodeState st) = some st := by
  obtain ⟨fs, sp, cs⟩ := st
  simp [encodeState, decodeState, decodeStrList, decodeSeen, decodeIntList,
    decodeStrs_map, decodeInts_map, decodeSeenEntries_map]

/-! ### Seen lists stay duplicate-free -/

theorem preSeed_nodup (posts : List Post) (seen : List String) (h : seen.Nodup) :
    (preSeed posts seen).Nodup := by
  induction posts generalizing seen with
  | nil => simpa [preSeed]
  | cons p rest ih =>
    by_cases hp : p.id ∈ seen
    · simpa [preSeed, hp] using ih seen h
    · have hn : (seen ++ [p.id]).Nodup := by simp [List.nodup_append, h, hp]
      simpa [preSeed, hp] using ih _ hn

theorem dedupLoop_seen_nodup (seen : List String) (posts : List Post)
    (h : seen.Nodup) : (dedupLoop seen posts).2.Nodup := by
  induction posts generalizing seen with
  | nil => simpa [dedupLoop]
  | cons p rest ih =>
    by_cases hp : p.id ∈ seen
    · simpa [dedupLoop, hp] using ih seen h
    · have hn : (seen ++ [p.id]).Nodup := by simp [List.nodup_append, h, hp]
      simpa [dedupLoop, hp] using ih _ hn

theorem mem_setKey (m : SeenMap) (u : String) (v : List String)
    (e : String × List String) (h : e ∈ setKey m u v) : e ∈ m ∨ e = (u, v) := by
  induction m with
  | nil => simpa [setKey] using h
  | cons hd t ih =>
    obtain ⟨k, x⟩ := hd
    by_cases hk : k = u
    · subst hk
      rw [show setKey ((k, x) :: t) k v = (k, v) :: t from by simp [setKey]] at h
      rcases List.mem_cons.mp h with h | h
      · exact Or.inr h
      · exact Or.inl (List.mem_cons_of_mem _ h)
    · simp only [setKey, if_neg hk, List.mem_cons] at h
      rcases h with h | h
      · exact Or.inl (List.mem_cons.mpr (Or.inl h))
      · rcases ih h with h2 | h2
        · exact Or.inl (List.mem_cons_of_mem _ h2)
        · exact Or.inr h2

theorem seenNodup_setKey (m : SeenMap) (u : String) (v : List String)
    (hm : seenNodup m) (hv : v.Nodup) : seenNodup (setKey m u v) := by
  intro e he
  rcases mem_setKey m u v e he with h | h
  · exact hm e h
  · rw [h]
    exact hv

theorem lookupKey_mem (m : SeenMap) (u : String) (v : List String)
    (h : lookupKey m u = some v) : (u, v) ∈ m := by
  induction m with
  | nil => simp [lookupKey] at h
  | cons hd t ih =>
    obtain ⟨k, x⟩ := hd
    by_cases hk : k = u
    · subst hk
      simp [lookupKey] at h
      subst h
      exact List.mem_cons_self _ _
    · simp only [lookupKey, if_neg hk] at h
      exact List.mem_cons_of_mem _ (ih h)

theorem processFeed_of_some (sp : SeenMap) (u : String) (posts : List Post)
    (s : List String) (h : lookupKey sp u = some s) :
    processFeed sp u posts =
      ((dedupLoop s posts).1.length, (dedupLoop s posts).1,
        setKey sp u (dedupLoop s posts).2) := by
  simp [processFeed, h]

theorem processFeed_of_none (sp : SeenMap) (u : String) (posts : List Post)
    (h : lookupKey sp u = none) :
    processFeed sp u posts =
      ((dedupLoop [] posts).1.length, (dedupLoop [] posts).1,
        setKey (setKey sp u []) u (dedupLoop [] posts).2) := by
  simp [processFeed, h, lookupKey_setKey_self]

theorem processFeed_seenNodup (sp : SeenMap) (u : String) (posts : List Post)
    (h : seenNodup sp) : seenNodup (processFeed sp u posts).2.2 := by
  cases hlk : lookupKey sp u with
  | none =>
    rw [processFeed_of_none sp u posts hlk]
    exact seenNodup_setKey _ _ _ (seenNodup_setKey _ _ _ h (by simp))
      (dedupLoop_seen_nodup _ _ (by simp))
  | some s =>
    rw [processFeed_of_some sp u posts s hlk]
    exact seenNodup_setKey _ _ _ h
      (dedupLoop_seen_nodup _ _ (by simpa using h (u, s) (lookupKey_mem _ _ _ hlk)))

theorem checkFeedsGo_seenNodup (f : String → Option (List Post))
    (feeds : List String) (sp : SeenMap) (h : seenNodup sp) :
    seenNodup (checkFeedsGo f feeds sp).2.2 := by
  induction feeds generalizing sp with
  | nil => simpa [checkFeedsGo]
  | cons u rest ih =>
    simp only [checkFeedsGo]
    exact ih _ (processFeed_seenNodup _ _ _ h)

/-! ### Partial failure isolation -/

theorem eraseFirst_append_of_not_mem (l1 l2 : List String) (u : String)
    (h : u ∉ l1) : eraseFirst (l1 ++ u :: l2) u = l1 ++ l2 := by
  induction l1 with
  | nil => simp [eraseFirst]
  | cons x r ih =>
    simp only [List.mem_cons] at h
    push_neg at h
    have hx : ¬ x = u := fun he => h.1 he.symm
    simp [eraseFirst, hx, ih h.2]

theorem processFeed_fst (sp : SeenMap) (u : String) (posts : List Post) :
    (processFeed sp u posts).1
      = (dedupLoop ((lookupKey sp u).getD []) posts).1.length := by
  cases hlk : lookupKey sp u with
  | none => rw [processFeed_of_none sp u posts hlk]; simp [hlk]
  | some s => rw [processFeed_of_some sp u posts s hlk]; simp [hlk]

theorem processFeed_news (sp : SeenMap) (u : String) (posts : List Post) :
    (processFeed sp u posts).2.1
      = (dedupLoop ((lookupKey sp u).getD []) posts).1 := by
  cases hlk : lookupKey sp u with
  | none => rw [processFeed_of_none sp u posts hlk]; simp [hlk]
  | some s => rw [processFeed_of_some sp u posts s hlk]; simp [hlk]

theorem processFeed_lookup_self (sp : SeenMap) (u : String) (posts : List Post) :
    lookupKey (processFeed sp u posts).2.2 u
      = some (dedupLoop ((lookupKey sp u).getD []) posts).2 := by
  cases hlk : lookupKey sp u with
  | none =>
    rw [processFeed_of_none sp u posts hlk]
    simp [lookupKey_setKey_self, hlk]
  | some s =>
    rw [processFeed_of_some sp u posts s hlk]
    simp [lookupKey_setKey_self, hlk]

theorem processFeed_lookup_ne (sp : SeenMap) (u : String) (posts : List Post)
    (v : String) (hv : v ≠ u) :
    lookupKey (processFeed sp u posts).2.2 v = lookupKey sp v := by
  cases hlk : lookupKey sp u with
  | none =>
    rw [processFeed_of_none sp u posts hlk]
    rw [lookupKey_setKey_ne _ _ _ _ hv, lookupKey_setKey_ne _ _ _ _ hv]
  | some s =>
    rw [processFeed_of_some sp u posts s hlk]
    rw [lookupKey_setKey_ne _ _ _ _ hv]

theorem checkFeedsGo_append (f : String → Option (List Post)) (l1 l2 : List String)
    (sp : SeenMap) :
    checkFeedsGo f (l1 ++ l2) sp =
      ((checkFeedsGo f l1 sp).1 + (checkFeedsGo f l2 (checkFeedsGo f l1 sp).2.2).1,
        (checkFeedsGo f l1 sp).2.1
          ++ (checkFeedsGo f l2 (checkFeedsGo f l1 sp).2.2).2.1,
        (checkFeedsGo f l2 (checkFeedsGo f l1 sp).2.2).2.2) := by
  induction l1 generalizing sp with
  | nil => simp [checkFeedsGo]
  | cons w rest ih =>
    simp only [List.cons_append, checkFeedsGo, List.append_eq]
    rw [ih]
    simp [Nat.add_assoc, List.append_assoc]

theorem checkFeedsGo_lookup_not_mem (f : String → Option (List Post)) (u : String) :
    ∀ feeds : List String, u ∉ feeds → ∀ sp : SeenMap,
      lookupKey (checkFeedsGo f feeds sp).2.2 u = lookupKey sp u := by
  intro feeds
  induction feeds with
  | nil => intro _ sp; simp [checkFeedsGo]
  | cons w rest ih =>
    intro hu sp
    simp only [List.mem_cons] at hu
    push_neg at hu
    simp only [checkFeedsGo]
    rw [ih hu.2, processFeed_lookup_ne _ _ _ _ hu.1]

theorem checkFeedsGo_congr (f : String → Option (List Post)) (u : String) :
    ∀ feeds : List String, u ∉ feeds → ∀ sp1 sp2 : SeenMap,
      (∀ v, v ≠ u → lookupKey sp1 v = lookupKey sp2 v) →
      (checkFeedsGo f feeds sp1).1 = (checkFeedsGo f feeds sp2).1 ∧
      (checkFeedsGo f feeds sp1).2.1 = (checkFeedsGo f feeds sp2).2.1 ∧
      ∀ v, v ≠ u → lookupKey (checkFeedsGo f feeds sp1).2.2 v
        = lookupKey (checkFeedsGo f feeds sp2).2.2 v := by
  intro feeds
  induction feeds with
  | nil =>
    intro _ sp1 sp2 hagree
    exact ⟨rfl, rfl, hagree⟩
  | cons w rest ih =>
    intro hu sp1 sp2 hagree
    simp only [List.mem_cons] at hu
    push_neg at hu
    have hlkw : lookupKey sp1 w = lookupKey sp2 w := hagree w (Ne.symm hu.1)
    have hagree2 : ∀ v, v ≠ u →
        lookupKey (processFeed sp1 w ((f w).getD [])).2.2 v
          = lookupKey (processFeed sp2 w ((f w).getD [])).2.2 v := by
      intro v hv
      by_cases hvw : v = w
      · subst hvw
        rw [processFeed_lookup_self, processFeed_lookup_self, hlkw]
      · rw [processFeed_lookup_ne _ _ _ _ hvw, processFeed_lookup_ne _ _ _ _ hvw]
        exact hagree v hv
    obtain ⟨ihc, ihn, ihm⟩ := ih hu.2 _ _ hagree2
    refine ⟨?_, ?_, ?_⟩
    · simp only [checkFeedsGo, processFeed_fst]
      rw [hlkw, ihc]
    · simp only [checkFeedsGo, processFeed_news]
      rw [hlkw, ihn]
    · intro v hv
      simp only [checkFeedsGo]
      exact ihm v hv

/-- C9 — Partial failure isolation: if the fetch for one registered feed
fails (models `get_feed_posts` catching the exception and returning `[]`),
the check cycle reports exactly the same new-post count and the same
notified posts as the cycle over the remaining feeds, and that feed's seen
list comes through unchanged (up to being initialised when absent); the
cycle is a total function, so no exception escapes it. -/
theorem partial_failure_isolation (st : TrackingState)
    (f : String → Option (List Post)) (u : String)
    (hu : u ∈ st.feeds) (hf : f u = none) (hnd : st.feeds.Nodup) :
    (check_feeds st f).1
        = (check_feeds { st with feeds := eraseFirst st.feeds u } f).1 ∧
    (check_feeds st f).2.1
        = (check_feeds { st with feeds := eraseFirst st.feeds u } f).2.1 ∧
    lookupKey (check_feeds st f).2.2.seen_posts u
        = some ((lookupKey st.seen_posts u).getD []) := by
  obtain ⟨l1, l2, hsplit⟩ := List.append_of_mem hu
  rw [hsplit] at hnd
  obtain ⟨hl1, hl2c, hdisj⟩ := List.nodup_append.mp hnd
  have hul1 : u ∉ l1 := fun hm => hdisj hm (List.mem_cons_self u l2)
  have hul2 : u ∉ l2 := (List.nodup_cons.mp hl2c).1
  have herase : eraseFirst st.feeds u = l1 ++ l2 := by
    rw [hsplit]
    exact eraseFirst_append_of_not_mem l1 l2 u hul1
  obtain ⟨hc, hn, _⟩ :=
    checkFeedsGo_congr f u l2 hul2
      (processFeed (checkFeedsGo f l1 st.seen_posts).2.2 u []).2.2
      (checkFeedsGo f l1 st.seen_posts).2.2
      (fun v hv => processFeed_lookup_ne _ _ _ _ hv)
  have hAu : lookupKey (checkFeedsGo f l1 st.seen_posts).2.2 u
      = lookupKey st.seen_posts u :=
    checkFeedsGo_lookup_not_mem f u l1 hul1 st.seen_posts
  refine ⟨?_, ?_, ?_⟩
  · simp only [check_feeds]
    rw [herase, hsplit, checkFeedsGo_append, checkFeedsGo_append]
    simp only [checkFeedsGo, hf, Option.getD_none, processFeed_fst]
    simp only [dedupLoop, List.length_nil, Nat.zero_add]
    rw [hc]
  · simp only [check_feeds]
    rw [herase, hsplit, checkFeedsGo_append, checkFeedsGo_append]
    simp only [checkFeedsGo, hf, Option.getD_none, processFeed_news]
    simp only [dedupLoop, List.nil_append]
    rw [hn]
  · simp only [check_feeds]
    rw [hsplit, checkFeedsGo_append]
    simp only [checkFeedsGo, hf, Option.getD_none]
    rw [checkFeedsGo_lookup_not_mem f u l2 hul2, processFeed_lookup_self]
    simp [dedupLoop, hAu]

/-- Witness for C9: three feeds, the middle fetch fails. -/
theorem partial_failure_isolation_witness :
    ("b" ∈ (⟨["a", "b", "c"], [], []⟩ : TrackingState).feeds ∧
      (fun v => if v = "b" then none
        else some [examplePost v]) "b" = (none : Option (List Post)) ∧
      (⟨["a", "b", "c"], [], []⟩ : TrackingState).feeds.Nodup) ∧
    ((check_feeds ⟨["a", "b", "c"], [], []⟩
        (fun v => if v = "b" then none else some [examplePost v])).1
      = (check_feeds { (⟨["a", "b", "c"], [], []⟩ : TrackingState) with
            feeds := eraseFirst (⟨["a", "b", "c"], [], []⟩ : TrackingState).feeds "b" }
          (fun v => if v = "b" then none else some [examplePost v])).1 ∧
     (check_feeds ⟨["a", "b", "c"], [], []⟩
        (fun v => if v = "b" then none else some [examplePost v])).2.1
      = (check_feeds { (⟨["a", "b", "c"], [], []⟩ : TrackingState) with
            feeds := eraseFirst (⟨["a", "b", "c"], [], []⟩ : TrackingState).feeds "b" }
          (fun v => if v = "b" then none else some [examplePost v])).2.1 ∧
     lookupKey (check_feeds ⟨["a", "b", "c"], [], []⟩
        (fun v => if v = "b" then none else some [examplePost v])).2.2.seen_posts "b"
      = some ((lookupKey (⟨["a", "b", "c"], [], []⟩ :
          TrackingState).seen_posts "b").getD [])) :=
  ⟨⟨by decide, by decide, by decide⟩,
    partial_failure_isolation ⟨["a", "b", "c"], [], []⟩
      (fun v => if v = "b" then none else some [examplePost v]) "b"
      (by decide) (by decide) (by decide)⟩

/-- C10 — Every per-feed seen list stays duplicate-free: each operation
that extends a seen list (add-feed pre-seeding, the manual check, the
periodic check) appends an id only after a membership test, so from a
state with duplicate-free seen lists every resulting seen list is
duplicate-free. -/
theorem seen_lists_duplicate_free (st : TrackingState) (url : String)
    (fetched : List Post) (f : String → Option (List Post))
    (h : seenNodup st.seen_posts) :
    seenNodup (add_feed st url fetched).2.seen_posts ∧
    seenNodup (check_feeds st f).2.2.seen_posts ∧
    seenNodup (check_feeds_periodic st f).2.seen_posts := by
  refine ⟨?_, ?_, ?_⟩
  · by_cases hm : url ∈ st.feeds
    · simpa [add_feed, hm] using h
    · cases hfe : fetched.isEmpty
      · simp only [add_feed, if_neg hm, hfe, Bool.false_eq_true, if_false]
        exact seenNodup_setKey _ _ _ (seenNodup_setKey _ _ _ h (by simp))
          (preSeed_nodup _ _ (by simp))
      · simpa [add_feed, hm, hfe] using h
  · simpa [check_feeds] using checkFeedsGo_seenNodup f st.feeds st.seen_posts h
  · simpa [check_feeds_periodic] using
      checkFeedsGo_seenNodup f st.feeds st.seen_posts h

/-! ### Overlapping manual and scheduled checks -/

theorem good_step1 (s0 : List String) (s : ConcState) (h : Good s0 s) :
    Good s0 (step1 s) := by
  obtain ⟨se, no, p1, p2⟩ := s
  simp only [Good] at h
  obtain ⟨hseen, hnd⟩ := h
  cases p1 with
  | nil => exact ⟨hseen, hnd⟩
  | cons p rest =>
    by_cases hid : p.id ∈ se
    · simp only [step1, if_pos hid]
      exact ⟨hseen, hnd⟩
    · simp only [step1, if_neg hid]
      refine ⟨?_, ?_⟩
      · show se ++ [p.id] = s0 ++ (no ++ [p.id])
        rw [hseen, List.append_assoc]
      · show (no ++ [p.id]).Nodup
        have hni : p.id ∉ no := fun hm => hid (by rw [hseen]; exact List.mem_append_right _ hm)
        simp [List.nodup_append, hnd, hni]

theorem good_step2 (s0 : List String) (s : ConcState) (h : Good s0 s) :
    Good s0 (step2 s) := by
  obtain ⟨se, no, p1, p2⟩ := s
  simp only [Good] at h
  obtain ⟨hseen, hnd⟩ := h
  cases p2 with
  | nil => exact ⟨hseen, hnd⟩
  | cons p rest =>
    by_cases hid : p.id ∈ se
    · simp only [step2, if_pos hid]
      exact ⟨hseen, hnd⟩
    · simp only [step2, if_neg hid]
      refine ⟨?_, ?_⟩
      · show se ++ [p.id] = s0 ++ (no ++ [p.id])
        rw [hseen, List.append_assoc]
      · show (no ++ [p.id]).Nodup
        have hni : p.id ∉ no := fun hm => hid (by rw [hseen]; exact List.mem_append_right _ hm)
        simp [List.nodup_append, hnd, hni]

theorem tracked_step1 (i : String) (s0 : List String) (s : ConcState)
    (hg : Good s0 s) (ht : Tracked i s0 s) : Tracked i s0 (step1 s) := by
  obtain ⟨se, no, p1, p2⟩ := s
  simp only [Good] at hg
  obtain ⟨hseen, hnd⟩ := hg
  cases p1 with
  | nil => exact ht
  | cons p rest =>
    by_cases hid : p.id ∈ se
    · simp only [step1, if_pos hid, Tracked, List.map_cons, List.mem_cons] at ht ⊢
      rcases ht with (he | ht2) | ht | ht
      · have hin : i ∈ s0 ++ no := by rw [← hseen, he]; exact hid
        rcases List.mem_append.mp hin with h | h
        · exact Or.inr (Or.inl h)
        · exact Or.inr (Or.inr h)
      · exact Or.inl ht2
      · exact Or.inr (Or.inl ht)
      · exact Or.inr (Or.inr ht)
    · simp only [step1, if_neg hid, Tracked, List.map_cons, List.mem_cons] at ht ⊢
      rcases ht with (he | ht2) | ht | ht
      · exact Or.inr (Or.inr (by simp [he]))
      · exact Or.inl ht2
      · exact Or.inr (Or.inl ht)
      · exact Or.inr (Or.inr (List.mem_append_left _ ht))

theorem tracked_step2 (i : String) (s0 : List String) (s : ConcState)
    (ht : Tracked i s0 s) : Tracked i s0 (step2 s) := by
  obtain ⟨se, no, p1, p2⟩ := s
  cases p2 with
  | nil => exact ht
  | cons p rest =>
    by_cases hid : p.id ∈ se
    · simpa [step2, hid, Tracked] using ht
    · simp only [step2, if_neg hid, Tracked] at ht ⊢
      rcases ht with ht | ht | ht
      · exact Or.inl ht
      · exact Or.inr (Or.inl ht)
      · exact Or.inr (Or.inr (List.mem_append_left _ ht))

theorem goodTracked_drain1Aux (i : String) (s0 : List String) :
    ∀ (l : List Post) (s : ConcState), Good s0 s → Tracked i s0 s →
      Good s0 (drain1Aux l s) ∧ Tracked i s0 (drain1Aux l s) := by
  intro l
  induction l with
  | nil => intro s hg ht; exact ⟨hg, ht⟩
  | cons p r ih =>
    intro s hg ht
    exact ih _ (good_step1 s0 s hg) (tracked_step1 i s0 s hg ht)

theorem goodTracked_drain2Aux (i : String) (s0 : List String) :
    ∀ (l : List Post) (s : ConcState), Good s0 s → Tracked i s0 s →
      Good s0 (drain2Aux l s) ∧ Tracked i s0 (drain2Aux l s) := by
  intro l
  induction l with
  | nil => intro s hg ht; exact ⟨hg, ht⟩
  | cons p r ih =>
    intro s hg ht
    exact ih _ (good_step2 s0 s hg) (tracked_step2 i s0 s ht)

theorem goodTracked_runSched (i : String) (s0 : List String) :
    ∀ (sched : List Bool) (s : ConcState), Good s0 s → Tracked i s0 s →
      Good s0 (runSched sched s) ∧ Tracked i s0 (runSched sched s) := by
  intro sched
  induction sched with
  | nil =>
    intro s hg ht
    obtain ⟨hg1, ht1⟩ := goodTracked_drain1Aux i s0 s.pending1 s hg ht
    exact goodTracked_drain2Aux i s0 _ _ hg1 ht1
  | cons b r ih =>
    intro s hg ht
    cases b
    · simpa [runSched] using ih _ (good_step2 s0 s hg) (tracked_step2 i s0 s ht)
    · simpa [runSched] using ih _ (good_step1 s0 s hg) (tracked_step1 i s0 s hg ht)

theorem step1_pending1 (s : ConcState) (p : Post) (rest : List Post)
    (h : s.pending1 = p :: rest) : (step1 s).pending1 = rest := by
  obtain ⟨se, no, p1, p2⟩ := s
  simp only at h
  subst h
  by_cases hid : p.id ∈ se <;> simp [step1, hid]

theorem step2_pending1 (s : ConcState) : (step2 s).pending1 = s.pending1 := by
  obtain ⟨se, no, p1, p2⟩ := s
  cases p2 with
  | nil => rfl
  | cons p rest => by_cases hid : p.id ∈ se <;> simp [step2, hid]

theorem drain1Aux_pending1 : ∀ (l : List Post) (s : ConcState),
    s.pending1 = l → (drain1Aux l s).pending1 = [] := by
  intro l
  induction l with
  | nil => intro s h; simpa [drain1Aux] using h
  | cons p r ih =>
    intro s h
    exact ih (step1 s) (step1_pending1 s p r h)

theorem drain2Aux_pending1 : ∀ (l : List Post) (s : ConcState),
    (drain2Aux l s).pending1 = s.pending1 := by
  intro l
  induction l with
  | nil => intro s; rfl
  | cons p r ih =>
    intro s
    rw [show drain2Aux (p :: r) s = drain2Aux r (step2 s) from rfl, ih, step2_pending1]

theorem runSched_pending1 : ∀ (sched : List Bool) (s : ConcState),
    (runSched sched s).pending1 = [] := by
  intro sched
  induction sched with
  | nil =>
    intro s
    rw [show runSched [] s
      = drain2Aux (drain1Aux s.pending1 s).pending2 (drain1Aux s.pending1 s) from rfl]
    rw [drain2Aux_pending1]
    exact drain1Aux_pending1 s.pending1 s rfl
  | cons b r ih =>
    intro s
    cases b
    · simpa [runSched] using ih (step2 s)
    · simpa [runSched] using ih (step1 s)

/-- C4 — No double notification under overlapping checks: in the
interleaving model of a manual check and a scheduled check running over
the same feed with identical fetched post lists against the shared seen
list (atomic steps are the no-await test-and-append blocks; the event loop
may switch at every await), every schedule delivers exactly one
notification for each post id not previously seen, and the final seen list
— the one persisted by `save_data` — contains that id exactly once. -/
theorem no_double_notification (posts : List Post) (s0 : List String)
    (sched : List Bool) (i : String)
    (hi : i ∈ posts.map Post.id) (hs : i ∉ s0) :
    (runSched sched ⟨s0, [], posts, posts⟩).notified.count i = 1 ∧
    (runSched sched ⟨s0, [], posts, posts⟩).seen.count i = 1 := by
  have hg0 : Good s0 ⟨s0, [], posts, posts⟩ := ⟨by simp, List.nodup_nil⟩
  have ht0 : Tracked i s0 ⟨s0, [], posts, posts⟩ := Or.inl hi
  obtain ⟨hg, ht⟩ := goodTracked_runSched i s0 sched _ hg0 ht0
  have hp1 : (runSched sched ⟨s0, [], posts, posts⟩).pending1 = [] :=
    runSched_pending1 sched _
  simp only [Tracked] at ht
  have hmem : i ∈ (runSched sched ⟨s0, [], posts, posts⟩).notified := by
    rcases ht with h | h | h
    · rw [hp1] at h
      simp at h
    · exact absurd h hs
    · exact h
  have hc1 : (runSched sched ⟨s0, [], posts, posts⟩).notified.count i = 1 :=
    List.count_eq_one_of_mem hg.2 hmem
  refine ⟨hc1, ?_⟩
  rw [hg.1, List.count_append, hc1, List.count_eq_zero_of_not_mem hs]

/-- Witness for C4 at a concrete feed with one new post and a schedule
that interleaves the two coroutines. -/
theorem no_double_notification_witness :
    ("a" ∈ [examplePost "a"].map Post.id ∧ "a" ∉ ([] : List String)) ∧
    ((runSched [true, false]
        ⟨[], [], [examplePost "a"], [examplePost "a"]⟩).notified.count "a" = 1 ∧
      (runSched [true, false]
        ⟨[], [], [examplePost "a"], [examplePost "a"]⟩).seen.count "a" = 1) :=
  ⟨⟨by decide, by decide⟩,
    no_double_notification [examplePost "a"] [] [true, false] "a"
      (by decide) (by decide)⟩

/-- Witness for C10 at a concrete state, fetch and feed. -/
theorem seen_lists_duplicate_free_witness :
    seenNodup (⟨["a"], [("a", ["x"])], []⟩ : TrackingState).seen_posts ∧
    (seenNodup (add_feed ⟨["a"], [("a", ["x"])], []⟩ "b"
        [examplePost "y", examplePost "y"]).2.seen_posts ∧
      seenNodup (check_feeds ⟨["a"], [("a", ["x"])], []⟩
        (fun v => if v = "a" then some [examplePost "x", examplePost "z"]
          else none)).2.2.seen_posts ∧
      seenNodup (check_feeds_periodic ⟨["a"], [("a", ["x"])], []⟩
        (fun v => if v = "a" then some [examplePost "x", examplePost "z"]
          else none)).2.seen_posts) :=
  ⟨by decide,
    seen_lists_duplicate_free ⟨["a"], [("a", ["x"])], []⟩ "b"
      [examplePost "y", examplePost "y"]
      (fun v => if v = "a" then some [examplePost "x", examplePost "z"] else none)
      (by decide)⟩

end RSSBot
